import Mathlib

/-!
Shallow embedding of the quantum_rpg example of the `unitary` repository
(files `game_state.py`, `main_loop.py`, `input_helpers.py`, `npcs.py`),
together with theorems settling the specification claims about the
command parser, the save-file codec, the quantopedia flag bag, the
encounter block of the main loop and the input helpers.

Python strings are modelled as `List Char`; `str.split(sep)` for a
single-character separator is `pySplit`, `str.lower()` is `pyLower`
(ASCII model of Python's lowercasing), and the builtin `int(...)`
conversion is `parseInt` (optional sign followed by decimal digits).
-/

/-- Python strings, modelled as lists of characters. -/
abbrev PyStr := List Char

/-- `str.split(sep)` for a one-character separator, Python semantics:
`pySplit c [] = [[]]`, every occurrence of `c` separates, empty pieces kept. -/
def pySplit (sep : Char) : PyStr → List PyStr
  | [] => [[]]
  | c :: rest =>
    if c = sep then [] :: pySplit sep rest
    else
      match pySplit sep rest with
      | r :: rs => (c :: r) :: rs
      | [] => [[c]]

/-- `str.lower()`, modelled for the ASCII range (the command literals are ASCII). -/
def pyLower (s : PyStr) : PyStr := s.map Char.toLower

/-- Decimal digit run parser: `some n` iff the string is a nonempty
run of ASCII digits denoting `n`. -/
def parseDigits (s : PyStr) : Option Nat :=
  if s ≠ [] ∧ s.all Char.isDigit then
    some (s.foldl (fun a c => a * 10 + (c.toNat - 48)) 0)
  else none

/-- Python's `int(str)` conversion, modelled as an optional sign followed by
a nonempty run of decimal digits (`none` models `ValueError`). -/
def parseInt (s : PyStr) : Option Int :=
  match s with
  | [] => none
  | c :: rest =>
    if c = '-' then (parseDigits rest).map (fun n => -(n : Int))
    else if c = '+' then (parseDigits rest).map (fun n => (n : Int))
    else (parseDigits (c :: rest)).map (fun n => (n : Int))

/-- The ASCII character for a decimal digit. -/
def digitChar (d : Nat) : Char :=
  match d with
  | 0 => '0' | 1 => '1' | 2 => '2' | 3 => '3' | 4 => '4'
  | 5 => '5' | 6 => '6' | 7 => '7' | 8 => '8' | _ => '9'

/-- Fuel-indexed digit printer; `fuel > n` is always enough. -/
def natToCharsGo : Nat → Nat → PyStr
  | 0, _ => []
  | fuel + 1, n =>
    if n < 10 then [digitChar n]
    else natToCharsGo fuel (n / 10) ++ [digitChar (n % 10)]

/-- Python's `str(n)` for a natural number: its decimal digit string. -/
def natToChars (n : Nat) : PyStr := natToCharsGo (n + 1) n

/-- Python's `str(i)` for an integer: minus sign and digits when negative. -/
def intToChars (i : Int) : PyStr :=
  if i < 0 then '-' :: natToChars (-i).toNat else natToChars i.toNat

/-- Python slice `xs[i:]` for an `Int` index (negative indices count from the end). -/
def pySliceFrom (xs : List α) (i : Int) : List α :=
  if 0 ≤ i then xs.drop i.toNat
  else xs.drop (xs.length - (-i).toNat)

/-- Joining pieces with a single-character separator (no trailing separator). -/
def joinSep (sep : Char) : List PyStr → PyStr
  | [] => []
  | [p] => p
  | p :: ps => p ++ sep :: joinSep sep ps

/-! ## `game_state.py` -/

/-- `_SAVE_DELIMITER = ";"` (a one-character separator). -/
def _SAVE_DELIMITER : Char := ';'

/-- `_DICT_DELIMITER = ":"` (a one-character separator). -/
def _DICT_DELIMITER : Char := ':'

/-- `_QUANTOPEDIA_KEY = "qp"`. -/
def _QUANTOPEDIA_KEY : PyStr := "qp".toList

/-- Modelled from the spec: `qaracter.py` is not under `src/`.  The spec
delegates party-member serialization to the member capability
(`to_save_file`/`from_save_file`, with the serialized form required to avoid
the two reserved delimiters), so a member is modelled by its serialized form. -/
structure Qaracter where
  save : PyStr
deriving DecidableEq

/-- Modelled from the spec: member serialization. -/
def Qaracter.to_save_file (q : Qaracter) : PyStr := q.save

/-- Modelled from the spec: member deserialization, inverse of `to_save_file`. -/
def Qaracter.from_save_file (s : PyStr) : Qaracter := ⟨s⟩

/-- A Python `dict[str, str]` as an insertion-ordered association list
with (in any reachable state) pairwise-distinct keys. -/
abbrev PyDict := List (PyStr × PyStr)

/-- `k in d` for a Python dict: the key has an entry. -/
def dictContains (d : PyDict) (k : PyStr) : Bool := (List.lookup k d).isSome

/-- `d[k] = v` for a Python dict: overwrite in place when the key exists,
append otherwise. -/
def dictInsert (d : PyDict) (k v : PyStr) : PyDict :=
  if dictContains d k then d.map (fun p => if p.1 == k then (k, v) else p)
  else d ++ [(k, v)]

/-- `GameState.__init__` fields used by the claims.  The I/O plumbing
(`user_input`, `get_user_input`, `file`, the transient `current_input`) is
outside the embedding. -/
structure GameState where
  party : List Qaracter
  current_location_label : PyStr
  state_dict : PyDict
deriving DecidableEq

/-- `GameState.set_quantopedia`: ensure the `"qp"` entry exists (default `"0"`),
then store the decimal string of the bitwise OR of its parsed value with `num`.
`none` models the `ValueError` that `int(...)` raises on a non-numeric entry. -/
def GameState.set_quantopedia (gs : GameState) (num : Int) : Option GameState :=
  let d := if dictContains gs.state_dict _QUANTOPEDIA_KEY then gs.state_dict
           else dictInsert gs.state_dict _QUANTOPEDIA_KEY ['0']
  match (List.lookup _QUANTOPEDIA_KEY d).bind parseInt with
  | none => none
  | some quantopedia_num =>
    some { gs with
           state_dict := dictInsert d _QUANTOPEDIA_KEY (intToChars (Int.lor quantopedia_num num)) }

/-- `GameState.has_quantopedia`: `False` when the `"qp"` key is absent, else
whether the bitwise AND of the parsed entry with `num` is nonzero.  `none`
models the `ValueError` that `int(...)` raises on a non-numeric entry. -/
def GameState.has_quantopedia (gs : GameState) (num : Int) : Option Bool :=
  if ¬ dictContains gs.state_dict _QUANTOPEDIA_KEY then some false
  else
    match (List.lookup _QUANTOPEDIA_KEY gs.state_dict).bind parseInt with
    | none => none
    | some quantopedia_num => some (decide (Int.land quantopedia_num num ≠ 0))

/-- `GameState.with_save_file`, which mutates the state in place and returns
`self` or `None`: modelled as the post-call state paired with a success flag
(`false` models the `None` return).  Mirrors the source order of effects: the
location label is overwritten as soon as the token has at least two segments,
before the party count is validated. -/
def GameState.with_save_file (gs : GameState) (save_file : PyStr) : GameState × Bool :=
  let lines := pySplit _SAVE_DELIMITER save_file
  match lines with
  | [] => (gs, false)
  | [_] => (gs, false)
  | l0 :: l1 :: rest =>
    let gs1 := { gs with current_location_label := l0 }
    match parseInt l1 with
    | none => (gs1, false)
    | some num_party =>
      if ((l0 :: l1 :: rest).length : Int) < 2 + num_party then (gs1, false)
      else
        let party := (rest.take num_party.toNat).map Qaracter.from_save_file
        let dict_lines := pySliceFrom (l0 :: l1 :: rest) (2 + num_party)
        let state_dict := dict_lines.foldl (fun d line =>
          match pySplit _DICT_DELIMITER line with
          | v0 :: v1 :: _ => dictInsert d v0 v1
          | _ => d) []
        ({ gs1 with state_dict := state_dict, party := party }, true)

/-- `GameState.to_save_file`: location, party count, each member's serialized
form, then the `key:value` pairs, each followed by the delimiter, with the
final trailing delimiter stripped (`s[:-1]`). -/
def GameState.to_save_file (gs : GameState) : PyStr :=
  let s := gs.current_location_label ++ [_SAVE_DELIMITER]
           ++ natToChars gs.party.length ++ [_SAVE_DELIMITER]
  let s := s ++ (gs.party.map (fun p => p.to_save_file ++ [_SAVE_DELIMITER])).flatten
  let s := s ++ (gs.state_dict.map
                  (fun kv => kv.1 ++ [_DICT_DELIMITER] ++ kv.2 ++ [_SAVE_DELIMITER])).flatten
  s.dropLast

/-! ## `main_loop.py`: the command parser -/

/-- `Command`: enumeration of available commands, in declaration order. -/
inductive Command
  | LOAD | LOOK | STATUS | SAVE | HELP | QUANTOPEDIA | QUIT
deriving DecidableEq

/-- The literal value of each command (`QUIT`'s is capitalized). -/
def Command.value : Command → PyStr
  | .LOAD => "load".toList
  | .LOOK => "look".toList
  | .STATUS => "status".toList
  | .SAVE => "save".toList
  | .HELP => "help".toList
  | .QUANTOPEDIA => "quantopedia".toList
  | .QUIT => "Quit".toList

/-- Iteration order of `for cmd in cls`: enum declaration order. -/
def commandList : List Command :=
  [.LOAD, .LOOK, .STATUS, .SAVE, .HELP, .QUANTOPEDIA, .QUIT]

/-- The outcome of `Command.parse`: a command, `None`, or the raised
`AmbiguousCommandError`. -/
inductive ParseResult
  | ok : Option Command → ParseResult
  | ambiguous : ParseResult
deriving DecidableEq

/-- The filter predicate of the candidate loop in `Command.parse`
(`cmd == QUIT: continue`, then `cmd.value.startswith(lower_s)`). -/
def candPred (lower_s : PyStr) (cmd : Command) : Bool :=
  decide (cmd ≠ Command.QUIT) && lower_s.isPrefixOf cmd.value

/-- `Command.parse`: empty input gives `None`; a case-sensitive prefix of
`"Quit"` gives `QUIT`; otherwise the lower-cased input is matched as a prefix
of every other command's value, giving the unique candidate, `None` for no
candidate, and `AmbiguousCommandError` for two or more. -/
def Command.parse (s : PyStr) : ParseResult :=
  if s = [] then .ok none
  else if s.isPrefixOf Command.QUIT.value then .ok (some .QUIT)
  else
    let lower_s := pyLower s
    let candidates := commandList.filter (candPred lower_s)
    match candidates with
    | [c] => .ok (some c)
    | _ :: _ :: _ => .ambiguous
    | [] => .ok none

/-- The matching relation realized by `Command.parse`: `QUIT` is matched
case-sensitively (on nonempty input) and shadows the case-insensitive pass,
which matches the lower-cased input as a prefix of each other command. -/
def cmdMatches (s : PyStr) (c : Command) : Bool :=
  if c = Command.QUIT then !s.isEmpty && s.isPrefixOf Command.QUIT.value
  else !(s.isPrefixOf Command.QUIT.value) && (pyLower s).isPrefixOf c.value

/-! ## `input_helpers.py` -/

/-- One call of the function returned by `get_user_input_function` for a
provided sequence (`lambda _: next(iter_input)`): the prompt argument is
ignored, the iterator is modelled by threading the remaining list, and
`none` models the `StopIteration` raised on exhaustion. -/
def recordedInput (_prompt : PyStr) : List PyStr → Option (PyStr × List PyStr)
  | [] => none
  | s :: rest => some (s, rest)

/-- A run of successive calls of the recorded-input function, one per prompt:
the outputs in order and the remaining sequence, or `none` as soon as a call
hits an exhausted sequence. -/
def runInputs (prompts : List PyStr) (st : List PyStr) :
    Option (List PyStr × List PyStr) :=
  match prompts with
  | [] => some ([], st)
  | p :: ps =>
    match recordedInput p st with
    | none => none
    | some (s, st') => (runInputs ps st').map (fun r => (s :: r.1, r.2))

/-- `get_user_input_number` reading from a pre-recorded sequence: prompt until
an entry parses as an integer that is accepted (`max_number is None or
0 < v <= max_number`); rejected entries are consumed and retried.  `none`
models exhaustion of the sequence (the underlying `StopIteration`). -/
def get_user_input_number : List PyStr → Option Int → Option (Int × List PyStr)
  | [], _ => none
  | s :: rest, max_number =>
    match parseInt s with
    | none => get_user_input_number rest max_number
    | some user_input =>
      match max_number with
      | none => some (user_input, rest)
      | some m =>
        if user_input > 0 ∧ user_input ≤ m then some (user_input, rest)
        else get_user_input_number rest (some m)

/-! ## `main_loop.py`: the encounter block, and `npcs.py` -/

/-- The battle-outcome enumeration of `battle.py`.  Modelled from the spec:
`battle.py` is not under `src/`; the spec gives the battle state machine the
states `ACTIVE`, `PLAYERS_WON`, `PLAYERS_DOWN`. -/
inductive BattleResult
  | ACTIVE | PLAYERS_WON | PLAYERS_DOWN
deriving DecidableEq

/-- The encounter block of `MainLoop.loop`, iterating the current location's
encounters in order.  `trig e` stands for `e.will_trigger()` and `res e` for
the result of `e.initiate(...).loop()`; `orig` is the location's encounter
list that `remove_encounter` (Python `list.remove`, first occurrence —
modelled from the spec since `world.py` is not under `src/`) mutates.  The
removal happens before the `PLAYERS_WON`/`PLAYERS_DOWN` dispatch, so it is
unconditional on the battle result; the loop then breaks (or raises
`UntimelyDeathException`, ending the session). -/
def encounterBlock {E : Type} [DecidableEq E] (trig : E → Bool) (res : E → BattleResult)
    (orig : List E) : List E → List E × Option BattleResult
  | [] => (orig, none)
  | e :: rest =>
    if trig e then (orig.erase e, some (res e))
    else encounterBlock trig res orig rest

/-- One pass of the encounter block over a location's full encounter list:
the location's encounter list afterwards, and the battle result if an
encounter fired. -/
def runEncounters {E : Type} [DecidableEq E] (trig : E → Bool) (res : E → BattleResult)
    (encs : List E) : List E × Option BattleResult :=
  encounterBlock trig res encs encs

/-- `Npc.__subclasses__()` in `npcs.py`, in declaration order. -/
inductive NpcClass
  | Observer | BlueFoam | GreenFoam | RedFoam | PurpleFoam | SchrodingerCat
deriving DecidableEq

/-- The subclass list reflected over by the QUANTOPEDIA branch. -/
def npcSubclasses : List NpcClass :=
  [.Observer, .BlueFoam, .GreenFoam, .RedFoam, .PurpleFoam, .SchrodingerCat]

/-- `_FOAM_QUANTOPEDIA = 1` (Oxtail library entry bit). -/
def _FOAM_QUANTOPEDIA : Int := 1

/-- `_HILLS_QUANTOPEDIA = 2` (Hills huts entry bit). -/
def _HILLS_QUANTOPEDIA : Int := 2

/-- `_PERIMETER_QUANTOPEDIA = 4` (reserved). -/
def _PERIMETER_QUANTOPEDIA : Int := 4

/-- The `quantopedia_index()` override of each NPC subclass. -/
def NpcClass.quantopedia_index : NpcClass → Int
  | .Observer => _FOAM_QUANTOPEDIA
  | .BlueFoam => _FOAM_QUANTOPEDIA
  | .GreenFoam => _FOAM_QUANTOPEDIA
  | .RedFoam => _FOAM_QUANTOPEDIA
  | .PurpleFoam => _FOAM_QUANTOPEDIA
  | .SchrodingerCat => _HILLS_QUANTOPEDIA

/-- The QUANTOPEDIA branch of `MainLoop.loop`: the NPC classes whose names and
`quantopedia_entry()` texts are printed.  The source iterates
`npcs.Npc.__subclasses__()` unconditionally — the game state and its
`has_quantopedia` bits are never consulted in this branch. -/
def quantopediaCommandListing (_gs : GameState) : List NpcClass := npcSubclasses

/-- The segment list of a serialized `GameState`: location, party count,
member forms, `key:value` pairs. -/
def savePieces (gs : GameState) : List PyStr :=
  gs.current_location_label :: natToChars gs.party.length ::
    (gs.party.map Qaracter.to_save_file ++
     gs.state_dict.map (fun kv => kv.1 ++ _DICT_DELIMITER :: kv.2))

/-- A malformed save token: fewer than two segments, a non-numeric
party-count segment, or a declared count exceeding the available segments. -/
def saveMalformed (tok : PyStr) : Bool :=
  match pySplit _SAVE_DELIMITER tok with
  | l0 :: l1 :: rest =>
    match parseInt l1 with
    | none => true
    | some n => decide (((l0 :: l1 :: rest).length : Int) < 2 + n)
  | _ => true

/-! ## Theorems -/

theorem pySplit_no_sep {sep : Char} {p : PyStr} (h : sep ∉ p) :
    pySplit sep p = [p] := by
  induction p with
  | nil => rfl
  | cons c rest ih =>
    have hc : c ≠ sep := fun hcs => h (hcs ▸ List.mem_cons_self c rest)
    have hr : sep ∉ rest := fun hm => h (List.mem_cons_of_mem c hm)
    simp [pySplit, hc, ih hr]

theorem pySplit_append_sep {sep : Char} {p t : PyStr} (h : sep ∉ p) :
    pySplit sep (p ++ sep :: t) = p :: pySplit sep t := by
  induction p with
  | nil => simp [pySplit]
  | cons c rest ih =>
    have hc : c ≠ sep := fun hcs => h (hcs ▸ List.mem_cons_self c rest)
    have hr : sep ∉ rest := fun hm => h (List.mem_cons_of_mem c hm)
    have := ih hr
    simp only [List.cons_append, pySplit, if_neg hc, List.append_eq, this]

theorem pySplit_joinSep {sep : Char} {parts : List PyStr}
    (hne : parts ≠ []) (h : ∀ p ∈ parts, sep ∉ p) :
    pySplit sep (joinSep sep parts) = parts := by
  induction parts with
  | nil => exact absurd rfl hne
  | cons p ps ih =>
    cases ps with
    | nil => exact pySplit_no_sep (h p (List.mem_cons_self p []))
    | cons q qs =>
      have hp : sep ∉ p := h p (List.mem_cons_self p _)
      have hrest : ∀ r ∈ q :: qs, sep ∉ r := fun r hr => h r (List.mem_cons_of_mem p hr)
      have : joinSep sep (p :: q :: qs) = p ++ sep :: joinSep sep (q :: qs) := rfl
      rw [this, pySplit_append_sep hp, ih (by simp) hrest]

theorem joinTrail_eq_joinSep {sep : Char} {parts : List PyStr} (hne : parts ≠ []) :
    (parts.map (· ++ [sep])).flatten = joinSep sep parts ++ [sep] := by
  induction parts with
  | nil => exact absurd rfl hne
  | cons p ps ih =>
    cases ps with
    | nil => simp [joinSep]
    | cons q qs =>
      have h2 : joinSep sep (p :: q :: qs) = p ++ sep :: joinSep sep (q :: qs) := rfl
      rw [List.map_cons, List.flatten_cons, ih (by simp), h2]
      simp

theorem digitChar_isDigit {d : Nat} (h : d < 10) : (digitChar d).isDigit = true := by
  interval_cases d <;> decide

theorem digitChar_toNat {d : Nat} (h : d < 10) : (digitChar d).toNat - 48 = d := by
  interval_cases d <;> decide

theorem isDigit_ne_special {c : Char} (h : c.isDigit = true) :
    c ≠ ';' ∧ c ≠ ':' ∧ c ≠ '-' ∧ c ≠ '+' := by
  refine ⟨?_, ?_, ?_, ?_⟩ <;> rintro rfl <;> exact absurd h (by decide)

theorem natToCharsGo_fuel (n : Nat) : ∀ f1 f2, n < f1 → n < f2 →
    natToCharsGo f1 n = natToCharsGo f2 n := by
  induction n using Nat.strong_induction_on with
  | _ n ih =>
    intro f1 f2 h1 h2
    match f1, f2 with
    | a + 1, b + 1 =>
      by_cases hn : n < 10
      · simp [natToCharsGo, hn]
      · have hpos : 0 < n := by omega
        have hdiv : n / 10 < n := Nat.div_lt_self hpos (by norm_num)
        simp only [natToCharsGo, if_neg hn]
        rw [ih (n / 10) hdiv a b (by omega) (by omega)]

theorem natToChars_lt10 {n : Nat} (h : n < 10) : natToChars n = [digitChar n] := by
  simp [natToChars, natToCharsGo, h]

theorem natToChars_ge10 {n : Nat} (h : ¬ n < 10) :
    natToChars n = natToChars (n / 10) ++ [digitChar (n % 10)] := by
  have hpos : 0 < n := by omega
  have hdiv : n / 10 < n := Nat.div_lt_self hpos (by norm_num)
  show natToCharsGo (n + 1) n = _
  simp only [natToCharsGo, if_neg h]
  rw [natToCharsGo_fuel (n / 10) n (n / 10 + 1) (by omega) (by omega)]
  rfl

theorem natToChars_all_digit (n : Nat) : ∀ c ∈ natToChars n, c.isDigit = true := by
  induction n using Nat.strong_induction_on with
  | _ n ih =>
    by_cases hn : n < 10
    · rw [natToChars_lt10 hn]
      intro c hc
      rw [List.mem_singleton] at hc
      exact hc ▸ digitChar_isDigit hn
    · rw [natToChars_ge10 hn]
      intro c hc
      rcases List.mem_append.mp hc with h | h
      · exact ih (n / 10) (Nat.div_lt_self (by omega) (by norm_num)) c h
      · rw [List.mem_singleton] at h
        exact h ▸ digitChar_isDigit (Nat.mod_lt n (by norm_num))

theorem natToChars_ne_nil (n : Nat) : natToChars n ≠ [] := by
  by_cases hn : n < 10
  · rw [natToChars_lt10 hn]; simp
  · rw [natToChars_ge10 hn]; simp

theorem natToChars_foldl (n : Nat) : ∀ acc : Nat,
    (natToChars n).foldl (fun a c => a * 10 + (c.toNat - 48)) acc
      = acc * 10 ^ (natToChars n).length + n := by
  induction n using Nat.strong_induction_on with
  | _ n ih =>
    intro acc
    by_cases hn : n < 10
    · rw [natToChars_lt10 hn]
      simp [List.foldl, digitChar_toNat hn]
    · rw [natToChars_ge10 hn]
      have hdiv : n / 10 < n := Nat.div_lt_self (by omega) (by norm_num)
      rw [List.foldl_append, ih (n / 10) hdiv acc]
      simp only [List.foldl, List.length_append, List.length_singleton]
      rw [digitChar_toNat (Nat.mod_lt n (by norm_num))]
      ring_nf
      omega

theorem parseDigits_natToChars (n : Nat) : parseDigits (natToChars n) = some n := by
  unfold parseDigits
  rw [if_pos ⟨natToChars_ne_nil n, List.all_eq_true.mpr fun c hc => natToChars_all_digit n c hc⟩]
  rw [natToChars_foldl n 0]
  simp

theorem parseInt_natToChars (n : Nat) : parseInt (natToChars n) = some (n : Int) := by
  cases h : natToChars n with
  | nil => exact absurd h (natToChars_ne_nil n)
  | cons c cs =>
    have hd : c.isDigit = true := natToChars_all_digit n c (h ▸ List.mem_cons_self c cs)
    obtain ⟨-, -, hm, hp⟩ := isDigit_ne_special hd
    rw [parseInt, if_neg hm, if_neg hp, ← h, parseDigits_natToChars n]
    rfl

theorem parseInt_intToChars (i : Int) : parseInt (intToChars i) = some i := by
  by_cases hi : i < 0
  · rw [intToChars, if_pos hi, parseInt, if_pos rfl, parseDigits_natToChars]
    simp
    omega
  · rw [intToChars, if_neg hi]
    rw [parseInt_natToChars]
    congr 1
    omega

example :
    (GameState.with_save_file ⟨[], "home".toList, []⟩ "a;1;q1;k:v".toList)
      = (⟨[⟨"q1".toList⟩], "a".toList, [("k".toList, "v".toList)]⟩, true) := by decide

example :
    (GameState.to_save_file ⟨[⟨"q1".toList⟩], "a".toList, [("k".toList, "v".toList)]⟩)
      = "a;1;q1;k:v".toList := by decide

example :
    (GameState.with_save_file ⟨[], "home".toList, []⟩ "a;x;b".toList)
      = (⟨[], "a".toList, []⟩, false) := by decide

example : Command.parse "l".toList = .ambiguous := by decide
example : Command.parse "st".toList = .ok (some .STATUS) := by decide
example : Command.parse "Q".toList = .ok (some .QUIT) := by decide
example : Command.parse "q".toList = .ok (some .QUANTOPEDIA) := by decide
example : Command.parse "quit".toList = .ok none := by decide
example : Command.parse [] = .ok none := by decide
example : Command.parse "xyz".toList = .ok none := by decide

theorem candPred_eq_cmdMatches {s : PyStr} (_hs : s ≠ [])
    (hq : s.isPrefixOf Command.QUIT.value = false) (c : Command) :
    candPred (pyLower s) c = cmdMatches s c := by
  by_cases hc : c = Command.QUIT
  · subst hc; simp [candPred, cmdMatches, hq]
  · simp [candPred, cmdMatches, hc, hq]

theorem cmdMatches_nil_eq_false (c : Command) : cmdMatches [] c = false := by
  by_cases hc : c = Command.QUIT <;> simp [cmdMatches, hc, List.isPrefixOf]

theorem parse_of_filter {s : PyStr} (hs : ¬ s = [])
    (hq : ¬ s.isPrefixOf Command.QUIT.value = true) :
    Command.parse s =
      match commandList.filter (candPred (pyLower s)) with
      | [c] => .ok (some c)
      | _ :: _ :: _ => .ambiguous
      | [] => .ok none := by
  simp only [Command.parse, if_neg hs, if_neg hq]

theorem parse_unique {s : PyStr} {c : Command}
    (h : cmdMatches s c = true) (huniq : ∀ c', cmdMatches s c' = true → c' = c) :
    Command.parse s = .ok (some c) := by
  have hs : s ≠ [] := by
    rintro rfl
    rw [cmdMatches_nil_eq_false c] at h
    exact absurd h (by decide)
  by_cases hq : s.isPrefixOf Command.QUIT.value
  · have hcq : c = Command.QUIT := by
      by_contra hne
      simp [cmdMatches, hne, hq] at h
    subst hcq
    simp [Command.parse, hs, hq]
  · have hqf : s.isPrefixOf Command.QUIT.value = false := by
      simp only [Bool.not_eq_true] at hq
      exact hq
    have hpred : ∀ x ∈ commandList, candPred (pyLower s) x = (x == c) := by
      intro x _
      by_cases hx : x = c
      · subst hx
        rw [candPred_eq_cmdMatches hs hqf x, h]
        simp
      · cases hmx : cmdMatches s x with
        | true => exact absurd (huniq x hmx) hx
        | false =>
          rw [candPred_eq_cmdMatches hs hqf x, hmx]
          simp [hx]
    have hfc : commandList.filter (candPred (pyLower s)) = commandList.filter (· == c) :=
      List.filter_congr hpred
    have hcount : commandList.count c = 1 := by cases c <;> decide
    rw [parse_of_filter hs hq, hfc, List.filter_beq, hcount, List.replicate_one]

theorem parse_two_matches {s : PyStr} {c₁ c₂ : Command} (hne : c₁ ≠ c₂)
    (h₁ : cmdMatches s c₁ = true) (h₂ : cmdMatches s c₂ = true) :
    Command.parse s = .ambiguous := by
  have hs : s ≠ [] := by
    rintro rfl
    rw [cmdMatches_nil_eq_false c₁] at h₁
    exact absurd h₁ (by decide)
  have hq : s.isPrefixOf Command.QUIT.value = false := by
    by_contra h
    have hq' : s.isPrefixOf Command.QUIT.value = true := by
      simp only [Bool.not_eq_false] at h; exact h
    have e1 : c₁ = Command.QUIT := by
      by_contra hx; simp [cmdMatches, hx, hq'] at h₁
    have e2 : c₂ = Command.QUIT := by
      by_contra hx; simp [cmdMatches, hx, hq'] at h₂
    exact hne (e1.trans e2.symm)
  have m₁ : c₁ ∈ commandList.filter (candPred (pyLower s)) := by
    rw [List.mem_filter]
    refine ⟨by cases c₁ <;> decide, ?_⟩
    rw [candPred_eq_cmdMatches hs hq c₁]
    exact h₁
  have m₂ : c₂ ∈ commandList.filter (candPred (pyLower s)) := by
    rw [List.mem_filter]
    refine ⟨by cases c₂ <;> decide, ?_⟩
    rw [candPred_eq_cmdMatches hs hq c₂]
    exact h₂
  have hpf := parse_of_filter hs (by simp [hq])
  cases hL : commandList.filter (candPred (pyLower s)) with
  | nil =>
    rw [hL] at m₁
    exact absurd m₁ (List.not_mem_nil c₁)
  | cons a t =>
    cases t with
    | nil =>
      rw [hL] at m₁ m₂
      rw [List.mem_singleton] at m₁ m₂
      exact absurd (m₁.trans m₂.symm) hne
    | cons b t' =>
      rw [hL] at hpf
      exact hpf

theorem parse_none_iff (s : PyStr) :
    Command.parse s = .ok none ↔ (s = [] ∨ ∀ c, cmdMatches s c = false) := by
  constructor
  · intro h
    by_cases hs : s = []
    · exact Or.inl hs
    · right
      by_cases hq : s.isPrefixOf Command.QUIT.value
      · simp [Command.parse, hs, hq] at h
      · intro c
        have hqf : s.isPrefixOf Command.QUIT.value = false := by
          simp only [Bool.not_eq_true] at hq
          exact hq
        have hpf := parse_of_filter hs hq
        rw [hpf] at h
        cases hL : commandList.filter (candPred (pyLower s)) with
        | nil =>
          have hall := List.filter_eq_nil_iff.mp hL
          rw [← candPred_eq_cmdMatches hs hqf c]
          exact Bool.eq_false_iff.mpr (hall c (by cases c <;> decide))
        | cons a t =>
          rw [hL] at h
          cases t with
          | nil => exact absurd h (by simp)
          | cons b t' => exact absurd h (by simp)
  · intro h
    by_cases hs : s = []
    · subst hs; rfl
    · rcases h with rfl | hall
      · exact absurd rfl hs
      · have hq : s.isPrefixOf Command.QUIT.value = false := by
          by_contra hx
          have hq' : s.isPrefixOf Command.QUIT.value = true := by
            simp only [Bool.not_eq_false] at hx
            exact hx
          have := hall Command.QUIT
          simp [cmdMatches, hq', hs] at this
        have hfil : commandList.filter (candPred (pyLower s)) = [] := by
          apply List.filter_eq_nil_iff.mpr
          intro c _
          rw [candPred_eq_cmdMatches hs hq c, hall c]
          simp
        rw [parse_of_filter hs (by simp [hq]), hfil]

theorem parse_literal (c : Command) : Command.parse c.value = .ok (some c) := by
  cases c <;> decide

example : get_user_input_number ["x".toList, "7".toList, "3".toList] (some 4)
    = some (3, []) := by decide
example : get_user_input_number ["-2".toList] none = some (-2, []) := by decide
example : runInputs [">".toList] ["a".toList, "b".toList]
    = some (["a".toList], ["b".toList]) := by decide
example : runEncounters (fun n => n == 2) (fun _ => .PLAYERS_DOWN) [1, 2, 3]
    = ([1, 3], some .PLAYERS_DOWN) := by decide

theorem List_lookup_cons {α β : Type} [BEq α] (a : α) (p : α × β) (l : List (α × β)) :
    List.lookup a (p :: l) = if a == p.1 then some p.2 else List.lookup a l := by
  rcases p with ⟨k, v⟩
  rw [List.lookup]
  cases h : a == k <;> simp [h]

theorem lookup_append_of_none {α β : Type} [BEq α] {a : α} {l1 : List (α × β)}
    (h : List.lookup a l1 = none) (l2 : List (α × β)) :
    List.lookup a (l1 ++ l2) = List.lookup a l2 := by
  induction l1 with
  | nil => rfl
  | cons p rest ih =>
    rw [List.cons_append, List_lookup_cons]
    rw [List_lookup_cons] at h
    cases hb : a == p.1 with
    | true => rw [if_pos hb] at h; exact absurd h (by simp)
    | false =>
      rw [if_neg (by simp [hb])] at h ⊢
      exact ih h

theorem lookup_map_overwrite (d : PyDict) (k v : PyStr)
    (hc : (List.lookup k d).isSome = true) :
    List.lookup k (d.map (fun p => if p.1 == k then (k, v) else p)) = some v := by
  induction d with
  | nil => simp [List.lookup] at hc
  | cons p rest ih =>
    rw [List.map_cons]
    by_cases hp : (p.1 == k) = true
    · rw [if_pos hp, List_lookup_cons]
      simp
    · have hk : (k == p.1) = false := by
        cases hkk : k == p.1
        · rfl
        · have he : k = p.1 := eq_of_beq hkk
          subst he
          simp at hp
      rw [if_neg hp, List_lookup_cons, if_neg (by simp [hk])]
      apply ih
      rw [List_lookup_cons, if_neg (by simp [hk])] at hc
      exact hc

theorem lookup_none_of_not_contains {d : PyDict} {k : PyStr}
    (hc : dictContains d k = false) : List.lookup k d = none := by
  rw [dictContains] at hc
  cases h : List.lookup k d
  · rfl
  · rw [h] at hc
    simp at hc

theorem lookup_dictInsert (d : PyDict) (k v : PyStr) :
    List.lookup k (dictInsert d k v) = some v := by
  rw [dictInsert]
  by_cases hc : dictContains d k = true
  · rw [if_pos hc]
    exact lookup_map_overwrite d k v hc
  · rw [if_neg hc]
    have hn : dictContains d k = false := by
      cases h : dictContains d k
      · rfl
      · exact absurd h hc
    rw [lookup_append_of_none (lookup_none_of_not_contains hn)]
    simp [List.lookup]

theorem dictInsert_of_not_contains {d : PyDict} {k : PyStr} (v : PyStr)
    (h : dictContains d k = false) : dictInsert d k v = d ++ [(k, v)] := by
  rw [dictInsert, if_neg (by simp [h])]

theorem int_exists_testBit {x : Int} (h : x ≠ 0) : ∃ k, Int.testBit x k = true := by
  match x with
  | Int.ofNat m =>
    have hm : m ≠ 0 := by simpa using h
    by_contra hall
    push_neg at hall
    refine hm (Nat.zero_of_testBit_eq_false fun i => ?_)
    have hi := hall i
    show Nat.testBit m i = false
    exact Bool.not_eq_true _ ▸ hi
  | Int.negSucc m =>
    refine ⟨m, ?_⟩
    have hdef : Int.testBit (Int.negSucc m) m = Bool.not (Nat.testBit m m) := rfl
    rw [hdef, Nat.testBit_eq_false_of_lt (Nat.lt_two_pow m)]
    rfl

theorem int_testBit_zero_eq_false (k : Nat) : Int.testBit 0 k = false :=
  Nat.zero_testBit k

theorem land_ne_zero_of_testBit {x m : Int} {k : Nat}
    (hx : Int.testBit x k = true) (hm : Int.testBit m k = true) :
    Int.land x m ≠ 0 := by
  intro h0
  have ht := Int.testBit_land x m k
  rw [h0, int_testBit_zero_eq_false, hx, hm] at ht
  exact absurd ht (by decide)

theorem land_lor_self_ne_zero {q n : Int} (hn : n ≠ 0) :
    Int.land (Int.lor q n) n ≠ 0 := by
  obtain ⟨k, hk⟩ := int_exists_testBit hn
  refine land_ne_zero_of_testBit ?_ hk
  rw [Int.testBit_lor, hk]
  simp

theorem land_lor_mono {q n m : Int} (h : Int.land q m ≠ 0) :
    Int.land (Int.lor q n) m ≠ 0 := by
  obtain ⟨k, hk⟩ := int_exists_testBit h
  rw [Int.testBit_land] at hk
  have hq : Int.testBit q k = true := by
    cases hq : Int.testBit q k
    · rw [hq] at hk; simp at hk
    · rfl
  have hm : Int.testBit m k = true := by
    cases hm : Int.testBit m k
    · rw [hm] at hk; simp at hk
    · rfl
  refine land_ne_zero_of_testBit ?_ hm
  rw [Int.testBit_lor, hq]
  simp

theorem to_save_file_eq (gs : GameState) :
    gs.to_save_file = joinSep _SAVE_DELIMITER (savePieces gs) := by
  have h1 := @joinTrail_eq_joinSep _SAVE_DELIMITER (savePieces gs)
    (by simp [savePieces])
  have h2 : ((savePieces gs).map (· ++ [_SAVE_DELIMITER])).flatten.dropLast
      = joinSep _SAVE_DELIMITER (savePieces gs) := by
    rw [h1, List.dropLast_concat]
  rw [← h2]
  unfold GameState.to_save_file savePieces
  simp [List.map_map, Function.comp_def, List.append_assoc]

theorem decode_flags (flags : PyDict)
    (hf : ∀ kv ∈ flags, _DICT_DELIMITER ∉ kv.1 ∧ _DICT_DELIMITER ∉ kv.2)
    (hkeys : (flags.map Prod.fst).Nodup) :
    ∀ d0 : PyDict, (∀ kv ∈ flags, List.lookup kv.1 d0 = none) →
    (flags.map (fun kv => kv.1 ++ _DICT_DELIMITER :: kv.2)).foldl
      (fun d line =>
        match pySplit _DICT_DELIMITER line with
        | v0 :: v1 :: _ => dictInsert d v0 v1
        | _ => d) d0 = d0 ++ flags := by
  induction flags with
  | nil =>
    intro d0 _
    simp
  | cons kv rest ih =>
    intro d0 hd0
    rcases kv with ⟨k, v⟩
    obtain ⟨hk, hv⟩ := hf (k, v) (List.mem_cons_self _ _)
    have hsplitkv : pySplit _DICT_DELIMITER (k ++ _DICT_DELIMITER :: v) = [k, v] := by
      rw [pySplit_append_sep hk, pySplit_no_sep hv]
    have hkey : List.lookup k d0 = none := hd0 (k, v) (List.mem_cons_self _ _)
    have hcont : dictContains d0 k = false := by
      rw [dictContains, hkey]
      rfl
    rw [List.map_cons, List.foldl_cons]
    have hstep :
        (match pySplit _DICT_DELIMITER (k ++ _DICT_DELIMITER :: v) with
          | v0 :: v1 :: _ => dictInsert d0 v0 v1
          | _ => d0) = d0 ++ [(k, v)] := by
      rw [hsplitkv]
      exact dictInsert_of_not_contains v hcont
    rw [hstep]
    have hknotin : k ∉ rest.map Prod.fst := by
      rw [List.map_cons] at hkeys
      exact (List.nodup_cons.mp hkeys).1
    have hrest : ∀ kv' ∈ rest, List.lookup kv'.1 (d0 ++ [(k, v)]) = none := by
      intro kv' hkv'
      rw [lookup_append_of_none (hd0 kv' (List.mem_cons_of_mem _ hkv'))]
      have hne : kv'.1 ≠ k := by
        intro he
        exact hknotin (he ▸ List.mem_map.mpr ⟨kv', hkv', rfl⟩)
      rw [List_lookup_cons, if_neg (by simp [hne])]
      rfl
    rw [ih (fun kv' h' => hf kv' (List.mem_cons_of_mem _ h'))
        ((List.nodup_cons.mp (List.map_cons _ _ _ ▸ hkeys)).2) (d0 ++ [(k, v)]) hrest]
    simp

theorem with_save_file_to_save_file (gs0 gs : GameState)
    (hloc : _SAVE_DELIMITER ∉ gs.current_location_label)
    (hparty : ∀ q ∈ gs.party, _SAVE_DELIMITER ∉ q.save)
    (hflags : ∀ kv ∈ gs.state_dict,
      _SAVE_DELIMITER ∉ kv.1 ∧ _DICT_DELIMITER ∉ kv.1 ∧
      _SAVE_DELIMITER ∉ kv.2 ∧ _DICT_DELIMITER ∉ kv.2)
    (hkeys : (gs.state_dict.map Prod.fst).Nodup) :
    gs0.with_save_file gs.to_save_file =
      (⟨gs.party, gs.current_location_label, gs.state_dict⟩, true) := by
  have hnosep : ∀ p ∈ savePieces gs, _SAVE_DELIMITER ∉ p := by
    intro p hp
    simp only [savePieces, List.mem_cons, List.mem_append, List.mem_map] at hp
    rcases hp with rfl | rfl | ⟨q, hq, rfl⟩ | ⟨kv, hkv, rfl⟩
    · exact hloc
    · intro hmem
      have hd := natToChars_all_digit _ _ hmem
      exact absurd hd (by decide)
    · exact hparty q hq
    · obtain ⟨h1, -, h2, -⟩ := hflags kv hkv
      intro hmem
      rcases List.mem_append.mp hmem with h | h
      · exact h1 h
      · rcases List.mem_cons.mp h with h | h
        · exact absurd h (by decide)
        · exact h2 h
  have hsplit : pySplit _SAVE_DELIMITER (joinSep _SAVE_DELIMITER (savePieces gs))
      = savePieces gs := pySplit_joinSep (by simp [savePieces]) hnosep
  rw [to_save_file_eq]
  show GameState.with_save_file gs0 (joinSep _SAVE_DELIMITER (savePieces gs)) = _
  unfold GameState.with_save_file
  rw [hsplit]
  show (match savePieces gs with
    | [] => (gs0, false)
    | [_] => (gs0, false)
    | l0 :: l1 :: rest => _) = _
  rw [savePieces]
  simp only []
  rw [parseInt_natToChars]
  simp only []
  have hlen : ((gs.current_location_label :: natToChars gs.party.length ::
      (gs.party.map Qaracter.to_save_file ++
       gs.state_dict.map (fun kv => kv.1 ++ _DICT_DELIMITER :: kv.2))).length : Int)
      = 2 + (gs.party.map Qaracter.to_save_file).length
        + (gs.state_dict.map (fun kv => kv.1 ++ _DICT_DELIMITER :: kv.2)).length := by
    simp
    ring
  rw [if_neg (by
    rw [hlen]
    have : (gs.party.map Qaracter.to_save_file).length = gs.party.length :=
      List.length_map _ _
    rw [this]
    omega)]
  have htake : ((gs.party.map Qaracter.to_save_file ++
      gs.state_dict.map (fun kv => kv.1 ++ _DICT_DELIMITER :: kv.2)).take
        ((gs.party.length : Int)).toNat).map Qaracter.from_save_file = gs.party := by
    rw [Int.toNat_natCast]
    rw [← List.length_map gs.party Qaracter.to_save_file, List.take_left, List.map_map]
    have hcomp : Qaracter.from_save_file ∘ Qaracter.to_save_file = id := rfl
    rw [hcomp, List.map_id]
  have hdrop : pySliceFrom (gs.current_location_label :: natToChars gs.party.length ::
      (gs.party.map Qaracter.to_save_file ++
       gs.state_dict.map (fun kv => kv.1 ++ _DICT_DELIMITER :: kv.2)))
        (2 + (gs.party.length : Int))
      = gs.state_dict.map (fun kv => kv.1 ++ _DICT_DELIMITER :: kv.2) := by
    rw [pySliceFrom, if_pos (by omega)]
    have h2 : (2 + (gs.party.length : Int)).toNat = 2 + gs.party.length := by omega
    have h3 : 2 + gs.party.length = gs.party.length + 1 + 1 := by omega
    rw [h2, h3, List.drop_succ_cons, List.drop_succ_cons]
    rw [← List.length_map gs.party Qaracter.to_save_file, List.drop_left]
  have hfold := decode_flags gs.state_dict
    (fun kv h => ⟨(hflags kv h).2.1, (hflags kv h).2.2.2⟩) hkeys []
    (fun kv _ => rfl)
  rw [htake, hdrop, hfold]
  simp

theorem with_save_file_malformed (gs : GameState) (tok : PyStr)
    (h : saveMalformed tok = true) :
    (gs.with_save_file tok).2 = false ∧
    (gs.with_save_file tok).1.party = gs.party ∧
    (gs.with_save_file tok).1.state_dict = gs.state_dict ∧
    (gs.with_save_file tok).1.current_location_label =
      (match pySplit _SAVE_DELIMITER tok with
       | l0 :: _ :: _ => l0
       | _ => gs.current_location_label) := by
  cases hL : pySplit _SAVE_DELIMITER tok with
  | nil =>
    have hw : gs.with_save_file tok = (gs, false) := by
      unfold GameState.with_save_file
      rw [hL]
    rw [hw]
    exact ⟨rfl, rfl, rfl, rfl⟩
  | cons l0 t =>
    cases t with
    | nil =>
      have hw : gs.with_save_file tok = (gs, false) := by
        unfold GameState.with_save_file
        rw [hL]
      rw [hw]
      exact ⟨rfl, rfl, rfl, rfl⟩
    | cons l1 rest =>
      cases hp : parseInt l1 with
      | none =>
        have hw : gs.with_save_file tok
            = ({ gs with current_location_label := l0 }, false) := by
          unfold GameState.with_save_file
          rw [hL]
          simp only []
          rw [hp]
        rw [hw]
        exact ⟨rfl, rfl, rfl, rfl⟩
      | some n =>
        have hlt : ((l0 :: l1 :: rest).length : Int) < 2 + n := by
          unfold saveMalformed at h
          rw [hL] at h
          simp only [] at h
          rw [hp] at h
          exact of_decide_eq_true h
        have hw : gs.with_save_file tok
            = ({ gs with current_location_label := l0 }, false) := by
          unfold GameState.with_save_file
          rw [hL]
          simp only []
          rw [hp]
          simp only []
          rw [if_pos hlt]
        rw [hw]
        exact ⟨rfl, rfl, rfl, rfl⟩

theorem encounterBlock_find {E : Type} [DecidableEq E] (trig : E → Bool)
    (res : E → BattleResult) (orig : List E) :
    ∀ l e, l.find? trig = some e →
    encounterBlock trig res orig l = (orig.erase e, some (res e)) := by
  intro l
  induction l with
  | nil =>
    intro e h
    simp [List.find?] at h
  | cons a t ih =>
    intro e h
    cases htrig : trig a with
    | true =>
      rw [List.find?_cons_of_pos _ htrig] at h
      cases h
      rw [encounterBlock, if_pos htrig]
    | false =>
      rw [List.find?_cons_of_neg _ (by simp [htrig])] at h
      rw [encounterBlock, if_neg (by simp [htrig])]
      exact ih e h

theorem runInputs_exact : ∀ (xs prompts : List PyStr), prompts.length = xs.length →
    runInputs prompts xs = some (xs, []) := by
  intro xs
  induction xs with
  | nil =>
    intro prompts hlen
    cases prompts with
    | nil => rfl
    | cons p pt => simp at hlen
  | cons x xt ih =>
    intro prompts hlen
    cases prompts with
    | nil => simp at hlen
    | cons p pt =>
      rw [runInputs]
      show (match recordedInput p (x :: xt) with
        | none => none
        | some (s, st') => (runInputs pt st').map (fun r : List PyStr × List PyStr => (s :: r.1, r.2))) = _
      rw [show recordedInput p (x :: xt) = some (x, xt) from rfl]
      simp only []
      rw [ih pt (by simpa using hlen)]
      rfl

theorem runInputs_overrun : ∀ (xs prompts : List PyStr) (extra : PyStr),
    prompts.length = xs.length → runInputs (prompts ++ [extra]) xs = none := by
  intro xs
  induction xs with
  | nil =>
    intro prompts extra hlen
    cases prompts with
    | nil => rfl
    | cons p pt => simp at hlen
  | cons x xt ih =>
    intro prompts extra hlen
    cases prompts with
    | nil => simp at hlen
    | cons p pt =>
      rw [List.cons_append, runInputs]
      show (match recordedInput p (x :: xt) with
        | none => none
        | some (s, st') => (runInputs (pt ++ [extra]) st').map (fun r : List PyStr × List PyStr => (s :: r.1, r.2))) = _
      rw [show recordedInput p (x :: xt) = some (x, xt) from rfl]
      simp only []
      rw [ih pt extra (by simpa using hlen)]
      rfl

theorem guin_bounded : ∀ (inputs : List PyStr) (m v : Int) (rest : List PyStr),
    get_user_input_number inputs (some m) = some (v, rest) → 1 ≤ v ∧ v ≤ m := by
  intro inputs
  induction inputs with
  | nil =>
    intro m v rest h
    simp [get_user_input_number] at h
  | cons s t ih =>
    intro m v rest h
    rw [get_user_input_number] at h
    cases hp : parseInt s with
    | none =>
      rw [hp] at h
      exact ih m v rest h
    | some u =>
      rw [hp] at h
      simp only [] at h
      by_cases hin : u > 0 ∧ u ≤ m
      · rw [if_pos hin] at h
        obtain ⟨h1, h2⟩ := Prod.mk.injEq .. ▸ Option.some.injEq .. ▸ h
        omega
      · rw [if_neg hin] at h
        exact ih m v rest h

theorem guin_nomax {s : PyStr} {v : Int} (rest : List PyStr)
    (h : parseInt s = some v) :
    get_user_input_number (s :: rest) none = some (v, rest) := by
  rw [get_user_input_number, h]

theorem guin_skip {s : PyStr} {m : Int} (rest : List PyStr)
    (h : parseInt s = none ∨ ∃ v, parseInt s = some v ∧ ¬ (0 < v ∧ v ≤ m)) :
    get_user_input_number (s :: rest) (some m) = get_user_input_number rest (some m) := by
  rw [get_user_input_number]
  rcases h with h | ⟨v, hv, hout⟩
  · rw [h]
  · rw [hv]
    simp only []
    rw [if_neg hout]

theorem set_quantopedia_spec (gs : GameState) (n : Int)
    (hwf : ∀ v, List.lookup _QUANTOPEDIA_KEY gs.state_dict = some v →
      (parseInt v).isSome = true) :
    ∃ gs', gs.set_quantopedia n = some gs' ∧
      (n ≠ 0 → gs'.has_quantopedia n = some true) ∧
      (∀ m, gs.has_quantopedia m = some true → gs'.has_quantopedia m = some true) ∧
      (dictContains gs.state_dict _QUANTOPEDIA_KEY = false →
        ∀ k, gs.has_quantopedia k = some false) := by
  by_cases hc : dictContains gs.state_dict _QUANTOPEDIA_KEY = true
  · obtain ⟨v, hv⟩ := Option.isSome_iff_exists.mp hc
    obtain ⟨q, hq⟩ := Option.isSome_iff_exists.mp (hwf v hv)
    refine ⟨{ gs with state_dict := dictInsert gs.state_dict _QUANTOPEDIA_KEY (intToChars (Int.lor q n)) }, ?_, ?_, ?_, ?_⟩
    · simp only [GameState.set_quantopedia, hc, if_true]
      rw [hv]
      simp only [Option.some_bind]
      rw [hq]
    · intro hn
      have hl := lookup_dictInsert gs.state_dict _QUANTOPEDIA_KEY
        (intToChars (Int.lor q n))
      simp only [GameState.has_quantopedia]
      rw [if_neg (by simp [dictContains, hl])]
      rw [hl]
      simp only [Option.some_bind]
      rw [parseInt_intToChars]
      simp only []
      rw [decide_eq_true (land_lor_self_ne_zero hn)]
    · intro m hm
      simp only [GameState.has_quantopedia] at hm
      rw [if_neg (by simp [hc])] at hm
      rw [hv] at hm
      simp only [Option.some_bind] at hm
      rw [hq] at hm
      simp only [] at hm
      have hqm : Int.land q m ≠ 0 := of_decide_eq_true (Option.some.inj hm)
      have hl := lookup_dictInsert gs.state_dict _QUANTOPEDIA_KEY
        (intToChars (Int.lor q n))
      simp only [GameState.has_quantopedia]
      rw [if_neg (by simp [dictContains, hl])]
      rw [hl]
      simp only [Option.some_bind]
      rw [parseInt_intToChars]
      simp only []
      rw [decide_eq_true (land_lor_mono hqm)]
    · intro hfalse
      rw [hfalse] at hc
      exact absurd hc Bool.false_ne_true
  · have hcf : dictContains gs.state_dict _QUANTOPEDIA_KEY = false := by
      cases h : dictContains gs.state_dict _QUANTOPEDIA_KEY
      · rfl
      · exact absurd h hc
    have hl0 := lookup_dictInsert gs.state_dict _QUANTOPEDIA_KEY ['0']
    refine ⟨{ gs with state_dict := dictInsert (dictInsert gs.state_dict _QUANTOPEDIA_KEY ['0']) _QUANTOPEDIA_KEY (intToChars (Int.lor 0 n)) }, ?_, ?_, ?_, ?_⟩
    · simp only [GameState.set_quantopedia, hcf]
      rw [if_neg (by simp)]
      rw [hl0]
      simp only [Option.some_bind]
      rw [show parseInt ['0'] = some 0 from by decide]
    · intro hn
      have hl := lookup_dictInsert (dictInsert gs.state_dict _QUANTOPEDIA_KEY ['0'])
        _QUANTOPEDIA_KEY (intToChars (Int.lor 0 n))
      simp only [GameState.has_quantopedia]
      rw [if_neg (by simp [dictContains, hl])]
      rw [hl]
      simp only [Option.some_bind]
      rw [parseInt_intToChars]
      simp only []
      rw [decide_eq_true (land_lor_self_ne_zero hn)]
    · intro m hm
      simp only [GameState.has_quantopedia] at hm
      rw [if_pos (by simp [hcf])] at hm
      exact absurd (Option.some.inj hm) (by decide)
    · intro _ k
      simp only [GameState.has_quantopedia]
      rw [if_pos (by simp [hcf])]

example : saveMalformed "a;x".toList = true := by decide
example : saveMalformed "a;3;p1".toList = true := by decide
example : saveMalformed "a;1;p1;k:v".toList = false := by decide
example : pySplit ';' "a;;b".toList = ["a".toList, [], "b".toList] := by decide
example : pySplit ';' [] = [[]] := by decide
example : parseInt "12".toList = some 12 := by decide
example : parseInt "-3".toList = some (-3) := by decide
example : parseInt "x2".toList = none := by decide
example : parseInt [] = none := by decide
example : natToChars 120 = "120".toList := by decide
example : intToChars (-12) = "-12".toList := by decide
example : natToChars 0 = "0".toList := by decide
example : pySliceFrom [1,2,3,4] (-3) = [2,3,4] := by decide

/-! ## The claims -/

/-- Claim C1 (amended): on every malformed save token (fewer than two
segments, non-numeric count, or count exceeding the remaining segments),
the in-place decode fails (returns `None`) and leaves the party and the flag
mapping unchanged; the location label is unchanged in the fewer-than-two-
segments case, but is overwritten with the token's first segment when the
count segment is non-numeric or the declared count exceeds the remaining
segments — the commit is not all-or-nothing for the location label. -/
theorem claim_C1 (gs : GameState) (tok : PyStr) (h : saveMalformed tok = true) :
    (gs.with_save_file tok).2 = false ∧
    (gs.with_save_file tok).1.party = gs.party ∧
    (gs.with_save_file tok).1.state_dict = gs.state_dict ∧
    (gs.with_save_file tok).1.current_location_label =
      (match pySplit _SAVE_DELIMITER tok with
       | l0 :: _ :: _ => l0
       | _ => gs.current_location_label) :=
  with_save_file_malformed gs tok h

/-- Claim C1, counterexample to the claim as stated: on the live state with
location `"home"` and the malformed token `"a;x"` (non-numeric count), the
decode fails but the location label has been overwritten with `"a"`. -/
theorem claim_C1_counterexample :
    ((GameState.mk [] "home".toList []).with_save_file "a;x".toList).2 = false ∧
    ((GameState.mk [] "home".toList []).with_save_file "a;x".toList).1.current_location_label
      ≠ "home".toList := by
  decide

/-- Claim C1, witness for the amended theorem at the token `"a;x"`. -/
theorem claim_C1_witness :
    ((GameState.mk [] "home".toList []).with_save_file "a;x".toList).2 = false ∧
    ((GameState.mk [] "home".toList []).with_save_file "a;x".toList).1.party = [] ∧
    ((GameState.mk [] "home".toList []).with_save_file "a;x".toList).1.state_dict = [] ∧
    ((GameState.mk [] "home".toList []).with_save_file "a;x".toList).1.current_location_label
      = (match pySplit _SAVE_DELIMITER "a;x".toList with
         | l0 :: _ :: _ => l0
         | _ => "home".toList) :=
  claim_C1 (GameState.mk [] "home".toList []) "a;x".toList (by decide)

/-- Claim C2 (amended): decode-after-encode reproduces the location label,
the party (same order and per-member content) and the flag mapping, on any
pre-existing live state, provided the location label avoids the field
delimiter, each member serialization avoids the field delimiter (as the spec
requires of the member capability), and each flag key and value avoids both
reserved delimiters; flag keys are distinct because the flag bag is a dict. -/
theorem claim_C2 (gs0 gs : GameState)
    (hloc : _SAVE_DELIMITER ∉ gs.current_location_label)
    (hparty : ∀ q ∈ gs.party, _SAVE_DELIMITER ∉ q.save)
    (hflags : ∀ kv ∈ gs.state_dict,
      _SAVE_DELIMITER ∉ kv.1 ∧ _DICT_DELIMITER ∉ kv.1 ∧
      _SAVE_DELIMITER ∉ kv.2 ∧ _DICT_DELIMITER ∉ kv.2)
    (hkeys : (gs.state_dict.map Prod.fst).Nodup) :
    gs0.with_save_file gs.to_save_file =
      (⟨gs.party, gs.current_location_label, gs.state_dict⟩, true) :=
  with_save_file_to_save_file gs0 gs hloc hparty hflags hkeys

/-- Claim C2, counterexample to the claim as stated (arbitrary flag mapping):
the state with the single flag `"a" ↦ "b:c"` encodes to `"home;0;a:b:c"`,
whose decode succeeds but truncates the flag value to `"b"`, so the flag set
is not reproduced. -/
theorem claim_C2_counterexample :
    ((GameState.mk [] [] []).with_save_file
        (GameState.mk [] "home".toList [("a".toList, "b:c".toList)]).to_save_file).2 = true ∧
    ("a".toList, "b:c".toList) ∉
      ((GameState.mk [] [] []).with_save_file
        (GameState.mk [] "home".toList [("a".toList, "b:c".toList)]).to_save_file).1.state_dict := by
  decide

/-- Claim C2, witness for the amended theorem: a one-member party with one
delimiter-free flag round-trips. -/
theorem claim_C2_witness :
    (GameState.mk [] [] []).with_save_file
        (GameState.mk [Qaracter.mk "q1".toList] "loc".toList
          [("k".toList, "v".toList)]).to_save_file
      = (⟨[Qaracter.mk "q1".toList], "loc".toList, [("k".toList, "v".toList)]⟩, true) :=
  claim_C2 (GameState.mk [] [] [])
    (GameState.mk [Qaracter.mk "q1".toList] "loc".toList [("k".toList, "v".toList)])
    (by decide) (by decide) (by decide) (by decide)

/-- Claim C3: parsing each command's full literal returns that command;
parsing an input matched (under the parser's matching relation, `QUIT`
case-sensitively first, the rest case-insensitively) by exactly one command
returns that command; and parsing an input matched by two or more distinct
commands raises `AmbiguousCommandError` rather than picking one. -/
theorem claim_C3 :
    (∀ c : Command, Command.parse c.value = .ok (some c)) ∧
    (∀ (s : PyStr) (c : Command), cmdMatches s c = true →
      (∀ c', cmdMatches s c' = true → c' = c) → Command.parse s = .ok (some c)) ∧
    (∀ (s : PyStr) (c₁ c₂ : Command), c₁ ≠ c₂ → cmdMatches s c₁ = true →
      cmdMatches s c₂ = true → Command.parse s = .ambiguous) :=
  ⟨parse_literal,
   fun _ _ h hu => parse_unique h hu,
   fun _ _ _ hne h1 h2 => parse_two_matches hne h1 h2⟩

/-- Claim C3, witness: `"st"` uniquely matches STATUS and parses to it; the
one-character input `"l"` matches both `load` and `look` and is ambiguous. -/
theorem claim_C3_witness :
    Command.parse "st".toList = .ok (some .STATUS) ∧
    Command.parse "l".toList = .ambiguous :=
  ⟨claim_C3.2.1 "st".toList Command.STATUS (by decide)
      (fun c' => by cases c' <;> decide),
   claim_C3.2.2 "l".toList Command.LOAD Command.LOOK (by decide) (by decide) (by decide)⟩

/-- Claim C4: the claim (the compendium lists only entries whose unlock flag
is set) is what `npcs.py` documents, but the QUANTOPEDIA branch of the main
loop prints every `Npc` subclass entry unconditionally: on a state with no
flags at all, the listing still contains `Observer` although its unlock bit
(`quantopedia_index = 1`) is unset. -/
theorem claim_C4 :
    (∀ gs : GameState, quantopediaCommandListing gs = npcSubclasses) ∧
    NpcClass.Observer ∈ quantopediaCommandListing (GameState.mk [] [] []) ∧
    (GameState.mk [] [] []).has_quantopedia
      NpcClass.Observer.quantopedia_index = some false :=
  ⟨fun _ => rfl, by decide, by decide⟩

/-- Claim C5: when an encounter of the current location triggers (the first
one whose `will_trigger` fires), the encounter block removes exactly that
encounter from the location's list — whatever the battle result — so (for a
duplicate-free encounter list) it is no longer present and cannot fire
again. -/
theorem claim_C5 {E : Type} [DecidableEq E] (trig : E → Bool)
    (res : E → BattleResult) (encs : List E) (e : E)
    (hfind : encs.find? trig = some e) :
    runEncounters trig res encs = (encs.erase e, some (res e)) ∧
    (encs.Nodup → e ∉ (runEncounters trig res encs).1) := by
  have h := encounterBlock_find trig res encs encs e hfind
  refine ⟨h, fun hnd hmem => ?_⟩
  rw [runEncounters] at hmem
  rw [h] at hmem
  exact ((hnd.mem_erase_iff).mp hmem).1 rfl

/-- Claim C5, witness: in the encounter list `[1, 2, 3]` the encounter `2`
triggers, its battle ends in `PLAYERS_DOWN`, and it is removed. -/
theorem claim_C5_witness :
    runEncounters (fun n => n == 2) (fun _ => BattleResult.PLAYERS_DOWN) [1, 2, 3]
        = ([1, 3], some BattleResult.PLAYERS_DOWN) ∧
    (([1, 2, 3] : List Nat).Nodup →
      2 ∉ (runEncounters (fun n => n == 2) (fun _ => BattleResult.PLAYERS_DOWN)
            [1, 2, 3]).1) :=
  claim_C5 (fun n => n == 2) (fun _ => BattleResult.PLAYERS_DOWN) [1, 2, 3] 2 (by decide)

/-- Claim C6: `Command.parse` returns `None` exactly when the input is empty
or matches no command, and returns the command when the input matches exactly
one. -/
theorem claim_C6 : ∀ s : PyStr,
    (Command.parse s = .ok none ↔ (s = [] ∨ ∀ c, cmdMatches s c = false)) ∧
    (∀ c, cmdMatches s c = true → (∀ c', cmdMatches s c' = true → c' = c) →
      Command.parse s = .ok (some c)) :=
  fun s => ⟨parse_none_iff s, fun _ h hu => parse_unique h hu⟩

/-- Claim C6, witness: `"xyz"` matches nothing and parses to `None`;
`"sa"` uniquely matches SAVE. -/
theorem claim_C6_witness :
    Command.parse "xyz".toList = .ok none ∧
    Command.parse "sa".toList = .ok (some .SAVE) :=
  ⟨(claim_C6 "xyz".toList).1.mpr (Or.inr (fun c => by cases c <;> decide)),
   (claim_C6 "sa".toList).2 Command.SAVE (by decide)
     (fun c' => by cases c' <;> decide)⟩

/-- Claim C7: with a positive bound, `get_user_input_number` only ever
returns a value in `1..max_number`; a non-numeric or out-of-range entry is
consumed and the prompt retried on the rest of the sequence; with no bound,
the first numeric entry (zero and negatives included) is returned. -/
theorem claim_C7 :
    (∀ (inputs : List PyStr) (m : Int), 0 < m → ∀ (v : Int) (rest : List PyStr),
      get_user_input_number inputs (some m) = some (v, rest) → 1 ≤ v ∧ v ≤ m) ∧
    (∀ (s : PyStr) (rest : List PyStr) (m : Int),
      (parseInt s = none ∨ ∃ v, parseInt s = some v ∧ ¬ (0 < v ∧ v ≤ m)) →
      get_user_input_number (s :: rest) (some m)
        = get_user_input_number rest (some m)) ∧
    (∀ (s : PyStr) (rest : List PyStr) (v : Int), parseInt s = some v →
      get_user_input_number (s :: rest) none = some (v, rest)) :=
  ⟨fun inputs m _ v rest h => guin_bounded inputs m v rest h,
   fun _ rest _ h => guin_skip rest h,
   fun _ rest _ h => guin_nomax rest h⟩

/-- Claim C7, witness: with bound 4 the sequence `["x", "7", "3"]` skips the
non-numeric and out-of-range entries and returns 3, which is in `1..4`; `"9"`
is skipped under bound 4; with no bound, `"-2"` is returned. -/
theorem claim_C7_witness :
    ((1 : Int) ≤ 3 ∧ (3 : Int) ≤ 4) ∧
    get_user_input_number ["9".toList, "2".toList] (some 4)
      = get_user_input_number ["2".toList] (some 4) ∧
    get_user_input_number ["-2".toList] none = some (-2, []) :=
  ⟨claim_C7.1 ["x".toList, "7".toList, "3".toList] 4 (by decide) 3 [] (by decide),
   claim_C7.2.1 "9".toList ["2".toList] 4 (Or.inr ⟨9, by decide, by decide⟩),
   claim_C7.2.2 "-2".toList [] (-2) (by decide)⟩

/-- Claim C8: the recorded-input function returns the pre-recorded strings in
order (ignoring the prompts) for the first `n` calls, and the `(n+1)`-th call
fails (the `StopIteration` of the exhausted iterator) instead of returning a
value. -/
theorem claim_C8 : ∀ (xs prompts : List PyStr) (extra : PyStr),
    prompts.length = xs.length →
    runInputs prompts xs = some (xs, []) ∧
    runInputs (prompts ++ [extra]) xs = none :=
  fun xs prompts extra h =>
    ⟨runInputs_exact xs prompts h, runInputs_overrun xs prompts extra h⟩

/-- Claim C8, witness: two recorded strings serve exactly two calls, and a
third call fails. -/
theorem claim_C8_witness :
    runInputs [">".toList, ">".toList] ["a".toList, "b".toList]
      = some (["a".toList, "b".toList], []) ∧
    runInputs ([">".toList, ">".toList] ++ [">".toList]) ["a".toList, "b".toList]
      = none :=
  claim_C8 ["a".toList, "b".toList] [">".toList, ">".toList] ">".toList (by decide)

/-- Claim C9: on a state whose `"qp"` entry (if present) parses as an
integer, `set_quantopedia n` succeeds; afterwards `has_quantopedia n` holds
whenever `n ≠ 0`; every bit observable before stays observable (the update is
a bitwise OR, it never clears bits); and on a state with no `"qp"` entry,
`has_quantopedia` is `False` for every argument. -/
theorem claim_C9 (gs : GameState) (n : Int)
    (hwf : ∀ v, List.lookup _QUANTOPEDIA_KEY gs.state_dict = some v →
      (parseInt v).isSome = true) :
    ∃ gs', gs.set_quantopedia n = some gs' ∧
      (n ≠ 0 → gs'.has_quantopedia n = some true) ∧
      (∀ m, gs.has_quantopedia m = some true → gs'.has_quantopedia m = some true) ∧
      (dictContains gs.state_dict _QUANTOPEDIA_KEY = false →
        ∀ k, gs.has_quantopedia k = some false) :=
  set_quantopedia_spec gs n hwf

/-- Claim C9, witness: setting bit 1 on the empty state. -/
theorem claim_C9_witness :
    ∃ gs', (GameState.mk [] [] []).set_quantopedia 1 = some gs' ∧
      ((1 : Int) ≠ 0 → gs'.has_quantopedia 1 = some true) ∧
      (∀ m, (GameState.mk [] [] []).has_quantopedia m = some true →
        gs'.has_quantopedia m = some true) ∧
      (dictContains (GameState.mk [] [] []).state_dict _QUANTOPEDIA_KEY = false →
        ∀ k, (GameState.mk [] [] []).has_quantopedia k = some false) :=
  claim_C9 (GameState.mk [] [] []) 1 (fun _ hv => nomatch hv)

/-- Claim C10: `parse "Q"` is QUIT (matched case-sensitively first) while
`parse "q"` is QUANTOPEDIA (QUIT is excluded from the case-insensitive
pass), so the one-letter lowercase `"q"` is neither ambiguous nor a quit. -/
theorem claim_C10 :
    Command.parse "Q".toList = .ok (some .QUIT) ∧
    Command.parse "q".toList = .ok (some .QUANTOPEDIA) := by
  decide
